import Mathlib

/-!
# Verification of the `bloodpressure` CLI (src/main.rs)

Shallow embedding of the single-file Rust program: the `Record` data model,
its timestamp-only ordering (`impl PartialOrd for Record`), the CSV
serialization used by `do_record` (serde + csv with `has_headers(false)` and
`chrono::serde::ts_seconds` for the timestamp), the load/sort/reverse/take
pipeline of `do_report`, the filesystem effects of the three subcommands, and
the `Display` implementation built on chrono's `%Y-%m-%d %I:%M%P` format
string.

Machine integers are modelled as `Nat`/`Int` with explicit range checks where
Rust's types impose them (`u32` fields parse only in `[0, 2^32)`, the
serialized timestamp is an `i64`).  Strings are modelled as `List Char`; a
CSV file is a list of lines, each line a list of characters; a possibly
missing file is an `Option`.
-/

namespace BloodPressure

/-! ## Decimal rendering and parsing of integers

Rust renders the integer fields with the standard decimal `Display` and the
csv/serde deserializer parses them back with the standard integer `FromStr`
(optional sign, decimal digits, range check).  We embed both directions.
`natDigitsCore` carries explicit fuel so that all definitions are structural
and evaluate by `decide`/`rfl`. -/

/-- Decimal digits of `n`, most significant first, with fuel (`fuel > n`
suffices). -/
def natDigitsCore (fuel : Nat) (n : Nat) : List Nat :=
  match fuel with
  | 0 => []
  | fuel + 1 => if n < 10 then [n] else natDigitsCore fuel (n / 10) ++ [n % 10]

/-- Decimal digits of `n`, most significant first. -/
def natDigits (n : Nat) : List Nat := natDigitsCore (n + 1) n

/-- The character for a decimal digit (digits ≥ 9 all map to `'9'`; only
`d < 10` is ever used). -/
def digitChar (d : Nat) : Char :=
  match d with
  | 0 => '0' | 1 => '1' | 2 => '2' | 3 => '3' | 4 => '4'
  | 5 => '5' | 6 => '6' | 7 => '7' | 8 => '8' | _ => '9'

/-- Decimal rendering of a natural number, as Rust's `Display` for unsigned
integers produces it. -/
def natDec (n : Nat) : List Char := (natDigits n).map digitChar

/-- Decimal rendering of an `i64` value, as Rust's `Display` for signed
integers produces it. -/
def intDec (i : Int) : List Char :=
  if i < 0 then '-' :: natDec (-i).toNat else natDec i.toNat

/-- Inverse of `digitChar` on decimal digit characters. -/
def charToDigit? (c : Char) : Option Nat :=
  if '0' ≤ c ∧ c ≤ '9' then some (c.toNat - 48) else none

/-- Accumulate decimal digits left to right; any non-digit character fails. -/
def parseDigitsAux : List Char → Nat → Option Nat
  | [], acc => some acc
  | c :: cs, acc =>
    match charToDigit? c with
    | some d => parseDigitsAux cs (acc * 10 + d)
    | none => none

/-- Parse a non-empty all-digits string as a natural number (Rust's unsigned
`FromStr` body after the optional sign). -/
def decToNat? : List Char → Option Nat
  | [] => none
  | cs => parseDigitsAux cs 0

/-! ### Round-trip lemmas for the decimal code -/

theorem natDigitsCore_ne_nil (fuel n : Nat) (h : n < fuel) :
    natDigitsCore fuel n ≠ [] := by
  match fuel with
  | 0 => omega
  | fuel + 1 =>
    unfold natDigitsCore
    split
    · simp
    · simp

theorem natDigitsCore_eq_of_le (fuel fuel' n : Nat) (h : n < fuel)
    (h' : n < fuel') : natDigitsCore fuel n = natDigitsCore fuel' n := by
  induction fuel generalizing fuel' n with
  | zero => omega
  | succ fuel ih =>
    match fuel' with
    | 0 => omega
    | fuel' + 1 =>
      unfold natDigitsCore
      split
      · rfl
      · rename_i hn
        have h10 : 10 ≤ n := by omega
        have hd : n / 10 < n := Nat.div_lt_self (by omega) (by omega)
        rw [ih fuel' (n / 10) (by omega) (by omega)]

theorem natDigits_eq_core (fuel n : Nat) (h : n < fuel) :
    natDigits n = natDigitsCore fuel n :=
  natDigitsCore_eq_of_le (n + 1) fuel n (Nat.lt_succ_self n) h

theorem natDigits_lt_ten (n : Nat) : ∀ d ∈ natDigits n, d < 10 := by
  unfold natDigits
  generalize hf : n + 1 = fuel
  have hn : n < fuel := by omega
  clear hf
  induction fuel generalizing n with
  | zero => omega
  | succ fuel ih =>
    unfold natDigitsCore
    split
    · rename_i hlt
      intro d hd
      simp at hd
      omega
    · rename_i hge
      intro d hd
      have hdd : n / 10 < n := Nat.div_lt_self (by omega) (by omega)
      rcases List.mem_append.mp hd with h1 | h1
      · exact ih (n / 10) (by omega) d h1
      · simp at h1
        omega

theorem charToDigit?_digitChar (d : Nat) (h : d < 10) :
    charToDigit? (digitChar d) = some d := by
  interval_cases d <;> decide

theorem digitChar_ne_comma (d : Nat) : digitChar d ≠ ',' := by
  unfold digitChar
  rcases d with _ | _ | _ | _ | _ | _ | _ | _ | _ | d <;>
    first
      | decide
      | exact (by decide : ('9' : Char) ≠ ',')

theorem digitChar_ne_minus (d : Nat) : digitChar d ≠ '-' := by
  unfold digitChar
  rcases d with _ | _ | _ | _ | _ | _ | _ | _ | _ | d <;>
    first
      | decide
      | exact (by decide : ('9' : Char) ≠ '-')

theorem digitChar_ne_plus (d : Nat) : digitChar d ≠ '+' := by
  unfold digitChar
  rcases d with _ | _ | _ | _ | _ | _ | _ | _ | _ | d <;>
    first
      | decide
      | exact (by decide : ('9' : Char) ≠ '+')

theorem parseDigitsAux_append (xs ys : List Char) (acc : Nat) :
    parseDigitsAux (xs ++ ys) acc =
      match parseDigitsAux xs acc with
      | some a => parseDigitsAux ys a
      | none => none := by
  induction xs generalizing acc with
  | nil => simp [parseDigitsAux]
  | cons c cs ih =>
    simp only [List.cons_append, parseDigitsAux]
    cases charToDigit? c with
    | some d => exact ih _
    | none => rfl

theorem parseDigitsAux_natDigits (n : Nat) (acc : Nat) :
    parseDigitsAux ((natDigits n).map digitChar) acc =
      some (acc * 10 ^ (natDigits n).length + n) := by
  unfold natDigits
  generalize hf : n + 1 = fuel
  have hn : n < fuel := by omega
  clear hf
  induction fuel generalizing n acc with
  | zero => omega
  | succ fuel ih =>
    unfold natDigitsCore
    split
    · rename_i hlt
      simp [parseDigitsAux, charToDigit?_digitChar n hlt]
    · rename_i hge
      have h10 : 10 ≤ n := by omega
      have hdd : n / 10 < n := Nat.div_lt_self (by omega) (by omega)
      rw [List.map_append, parseDigitsAux_append]
      rw [ih (n / 10) acc (by omega)]
      have hm : n % 10 < 10 := Nat.mod_lt _ (by omega)
      simp only [List.map_cons, List.map_nil, parseDigitsAux,
        charToDigit?_digitChar _ hm]
      simp only [List.length_append, List.length_cons, List.length_nil]
      congr 1
      have : 10 ^ ((natDigitsCore fuel (n / 10)).length + (0 + 1)) =
          10 ^ (natDigitsCore fuel (n / 10)).length * 10 := by
        rw [Nat.zero_add, Nat.pow_succ]
      rw [this]
      have hmod := Nat.div_add_mod n 10
      ring_nf
      omega

theorem decToNat?_natDec (n : Nat) : decToNat? (natDec n) = some n := by
  unfold natDec
  have hne : natDigits n ≠ [] :=
    natDigitsCore_ne_nil (n + 1) n (Nat.lt_succ_self n)
  have hmapne : (natDigits n).map digitChar ≠ [] := by
    simpa using hne
  rw [show decToNat? ((natDigits n).map digitChar)
      = parseDigitsAux ((natDigits n).map digitChar) 0 by
    unfold decToNat?
    cases hm : (natDigits n).map digitChar with
    | nil => exact absurd hm hmapne
    | cons c cs => rfl]
  rw [parseDigitsAux_natDigits]
  simp

theorem natDec_all_digits (n : Nat) :
    ∀ c ∈ natDec n, '0' ≤ c ∧ c ≤ '9' := by
  intro c hc
  unfold natDec at hc
  rcases List.mem_map.mp hc with ⟨d, hd, rfl⟩
  have hlt := natDigits_lt_ten n d hd
  interval_cases d <;> decide

theorem natDec_ne_nil (n : Nat) : natDec n ≠ [] := by
  unfold natDec
  simpa using natDigitsCore_ne_nil (n + 1) n (Nat.lt_succ_self n)

theorem comma_not_mem_natDec (n : Nat) : ',' ∉ natDec n := by
  intro hc
  rcases List.mem_map.mp hc with ⟨d, _, hd⟩
  exact digitChar_ne_comma d hd

/-! ## Signed-field parsing with Rust's range checks

Rust's integer `FromStr` (used by the csv/serde deserializer for each field)
accepts an optional leading `+` or `-` (no `-` for unsigned types), then one
or more decimal digits, and fails on overflow of the target type. -/

/-- Strip the optional sign from a field: returns `(isNegative, digit part)`. -/
def splitSign (cs : List Char) : Bool × List Char :=
  match cs with
  | c :: rest =>
    if c = '-' then (true, rest)
    else if c = '+' then (false, rest)
    else (false, cs)
  | [] => (false, [])

/-- Parse a field as Rust's `i64` (the representation `chrono::serde::ts_seconds`
deserializes the timestamp from): optional sign, decimal digits, value in
`[-2^63, 2^63)`. -/
def parseI64? (cs : List Char) : Option Int :=
  match splitSign cs with
  | (neg, body) =>
    match decToNat? body with
    | some n =>
      let v : Int := if neg then -(n : Int) else (n : Int)
      if -(2 ^ 63) ≤ v ∧ v < 2 ^ 63 then some v else none
    | none => none

/-- Parse a field as Rust's `u32` (the type of `systolic`, `diastolic`,
`pulse`): optional `+`, decimal digits, value `< 2^32`; a `-` sign always
fails. -/
def parseU32? (cs : List Char) : Option Nat :=
  match splitSign cs with
  | (true, _) => none
  | (false, body) =>
    match decToNat? body with
    | some n => if n < 2 ^ 32 then some n else none
    | none => none

/-- An integer field with no range restriction: the claim-level notion of
"the field is an integer" used to talk about rows whose fields are
well-formed integers but out of `u32` range. -/
def parseIntField? (cs : List Char) : Option Int :=
  match splitSign cs with
  | (neg, body) =>
    match decToNat? body with
    | some n => some (if neg then -(n : Int) else (n : Int))
    | none => none

theorem splitSign_digits (c : Char) (cs : List Char)
    (h : '0' ≤ c ∧ c ≤ '9') : splitSign (c :: cs) = (false, c :: cs) := by
  have h1 : c ≠ '-' := by
    rintro rfl
    revert h
    decide
  have h2 : c ≠ '+' := by
    rintro rfl
    revert h
    decide
  simp [splitSign, h1, h2]

theorem parseI64?_natDec (n : Nat) (h : (n : Int) < 2 ^ 63) :
    parseI64? (natDec n) = some (n : Int) := by
  obtain ⟨c, cs, hcons⟩ : ∃ c cs, natDec n = c :: cs := by
    cases hd : natDec n with
    | nil => exact absurd hd (natDec_ne_nil n)
    | cons c cs => exact ⟨c, cs, rfl⟩
  have hdig := natDec_all_digits n c (hcons ▸ List.mem_cons_self c cs)
  have hsplit : splitSign (natDec n) = (false, natDec n) := by
    rw [hcons]
    exact splitSign_digits c cs hdig
  have hcond : -(2 ^ 63 : Int) ≤ (n : Int) ∧ (n : Int) < 2 ^ 63 := by
    refine ⟨?_, h⟩
    have h0 : (0 : Int) ≤ (n : Int) := Int.natCast_nonneg n
    have hp : (0 : Int) < 2 ^ 63 := by positivity
    omega
  unfold parseI64?
  rw [hsplit]
  dsimp only
  rw [decToNat?_natDec]
  dsimp only
  rw [if_neg (by decide : ¬(false = true)), if_pos hcond]

theorem parseU32?_natDec (n : Nat) (h : n < 2 ^ 32) :
    parseU32? (natDec n) = some n := by
  obtain ⟨c, cs, hcons⟩ : ∃ c cs, natDec n = c :: cs := by
    cases hd : natDec n with
    | nil => exact absurd hd (natDec_ne_nil n)
    | cons c cs => exact ⟨c, cs, rfl⟩
  have hdig := natDec_all_digits n c (hcons ▸ List.mem_cons_self c cs)
  have hsplit : splitSign (natDec n) = (false, natDec n) := by
    rw [hcons]
    exact splitSign_digits c cs hdig
  unfold parseU32?
  rw [hsplit]
  dsimp only
  rw [decToNat?_natDec]
  dsimp only
  rw [if_pos h]

/-! ## CSV rows

The csv crate with `has_headers(false)` writes one record per line, fields
joined by commas (no quoting is ever needed here: all serialized fields are
sign/digit strings), and splits each line on commas when reading. -/

/-- Split a line on commas (the csv crate's field separation for the
quote-free fields this program produces). -/
def splitComma : List Char → List (List Char)
  | [] => [[]]
  | c :: rest =>
    if c = ',' then [] :: splitComma rest
    else
      match splitComma rest with
      | [] => [[c]]
      | f :: fs => (c :: f) :: fs

/-- Join fields with commas (the csv crate's record serialization for the
quote-free fields this program produces). -/
def joinComma : List (List Char) → List Char
  | [] => []
  | [f] => f
  | f :: fs => f ++ ',' :: joinComma fs

theorem splitComma_no_comma (cs : List Char) (h : ',' ∉ cs) :
    splitComma cs = [cs] := by
  induction cs with
  | nil => rfl
  | cons c rest ih =>
    have hc : c ≠ ',' := fun hc => h (hc ▸ List.mem_cons_self c rest)
    have hrest : ',' ∉ rest := fun hr => h (List.mem_cons_of_mem c hr)
    simp only [splitComma, if_neg hc, ih hrest]

theorem splitComma_append (f rest : List Char) (h : ',' ∉ f) :
    splitComma (f ++ ',' :: rest) = f :: splitComma rest := by
  induction f with
  | nil => simp [splitComma]
  | cons c f' ih =>
    have hc : c ≠ ',' := fun hc => h (hc ▸ List.mem_cons_self c f')
    have hf' : ',' ∉ f' := fun hf => h (List.mem_cons_of_mem c hf)
    simp only [List.cons_append, splitComma, if_neg hc, List.append_eq, ih hf']

theorem splitComma_joinComma (fields : List (List Char))
    (hne : fields ≠ []) (h : ∀ f ∈ fields, ',' ∉ f) :
    splitComma (joinComma fields) = fields := by
  induction fields with
  | nil => exact absurd rfl hne
  | cons f fs ih =>
    cases fs with
    | nil =>
      simp only [joinComma]
      exact splitComma_no_comma f (h f (List.mem_cons_self f []))
    | cons g gs =>
      have hjoin : joinComma (f :: g :: gs) = f ++ ',' :: joinComma (g :: gs) := rfl
      rw [hjoin, splitComma_append f _ (h f (List.mem_cons_self f _)),
        ih (by simp) (fun x hx => h x (List.mem_cons_of_mem f hx))]

/-! ## The `Record` data model (struct `Record` in src/main.rs)

`timestamp: chrono::DateTime<Utc>` is serialized through
`chrono::serde::ts_seconds`, i.e. as the `i64` count of seconds since the
Unix epoch; we model it directly by that integer.  `systolic`, `diastolic`,
`pulse` are `u32`. -/

structure Record where
  timestamp : Int
  systolic : Nat
  diastolic : Nat
  pulse : Nat
deriving DecidableEq, Repr

/-- Type-level invariants of the Rust struct: the timestamp fits in `i64`
(it is serialized as one) and the three pressure/pulse fields fit in `u32`. -/
def Record.WF (r : Record) : Prop :=
  -(2 ^ 63) ≤ r.timestamp ∧ r.timestamp < 2 ^ 63 ∧
    r.systolic < 2 ^ 32 ∧ r.diastolic < 2 ^ 32 ∧ r.pulse < 2 ^ 32

instance (r : Record) : Decidable r.WF := by
  unfold Record.WF
  infer_instance

/-! ## Ordering (`impl PartialOrd for Record`)

The manual implementation returns `Some(self.timestamp.cmp(&other.timestamp))`
— it looks at the timestamp only.  `Vec::sort` (called in `do_report`)
drives its stable merge sort with `T::lt`, the `PartialOrd`-derived strict
order, so this manual implementation (and not the derived `Ord`) is the
ordering the sort uses. -/

/-- Rust's `Ord::cmp` on `i64`. -/
def intCompare (a b : Int) : Ordering :=
  if a < b then .lt else if a = b then .eq else .gt

/-- `Record::partial_cmp`: `Some(self.timestamp.cmp(&other.timestamp))`. -/
def Record.partialCmp (a b : Record) : Option Ordering :=
  some (intCompare a.timestamp b.timestamp)

/-- `PartialOrd::lt`, derived from `partial_cmp` (this is the comparison
`Vec::sort` uses). -/
def recordLt (a b : Record) : Bool := Record.partialCmp a b == some .lt

/-- The non-strict order induced by `recordLt`: a stable sort driven by
`is_less = recordLt` keeps `a` before `b` exactly when `¬ recordLt b a`. -/
def recordLe (a b : Record) : Bool := !(recordLt b a)

/-! ## Serialization of one record (`writer.serialize(record)`) -/

/-- The four serialized fields, in the struct's declaration order. -/
def serializeRecord (r : Record) : List (List Char) :=
  [intDec r.timestamp, natDec r.systolic, natDec r.diastolic, natDec r.pulse]

/-- The CSV row the csv writer emits for one record (header-less, fields
comma-joined; no quoting occurs since every field is a sign/digit string). -/
def serializeLine (r : Record) : List Char := joinComma (serializeRecord r)

/-- Deserialization of one CSV line into a `Record` (the csv/serde reader:
split into fields, require exactly the struct's four fields, parse the
timestamp as `i64` seconds and the rest as `u32`). -/
def parseLine (cs : List Char) : Option Record :=
  match splitComma cs with
  | [f0, f1, f2, f3] =>
    match parseI64? f0, parseU32? f1, parseU32? f2, parseU32? f3 with
    | some ts, some s, some d, some p => some ⟨ts, s, d, p⟩
    | _, _, _, _ => none
  | _ => none

/-! ## The store: load, record, report -/

inductive LoadError where
  | missingFile
  | parseError
deriving DecidableEq, Repr

/-- Parse every line of the file; the first malformed line fails the whole
load (`records.push(result?)` in `do_report`). -/
def parseLines : List (List Char) → Option (List Record)
  | [] => some []
  | l :: ls =>
    match parseLine l, parseLines ls with
    | some r, some rs => some (r :: rs)
    | _, _ => none

/-- Loading the backing file: a missing file is an open error
(`OpenOptions::new().read(true).open` with no `create`), and any malformed
row aborts the load. -/
def loadAll : Option (List (List Char)) → Except LoadError (List Record)
  | none => .error .missingFile
  | some lines =>
    match parseLines lines with
    | some rs => .ok rs
    | none => .error .parseError

/-- `records.sort()`: Rust's stable sort driven by `PartialOrd::lt`. -/
def sortRecords (rs : List Record) : List Record := rs.mergeSort recordLe

/-- The pure content of `do_report`: load, sort ascending, reverse to
descending, take at most `limit`. -/
def doReportPure (file : Option (List (List Char))) (limit : Nat) :
    Except LoadError (List Record) :=
  match loadAll file with
  | .ok rs => .ok (((sortRecords rs).reverse).take limit)
  | .error e => .error e

/-- The filesystem state the program touches: whether the data directory
exists, and the backing file (`none` = absent) as a list of CSV lines. -/
structure FS where
  dirExists : Bool
  file : Option (List (List Char))
deriving DecidableEq, Repr

/-- `do_record`: `create_dir_all`, open with `create(true).append(true)`
(an absent file starts empty), serialize one row, flush. -/
def doRecord (fs : FS) (r : Record) : FS :=
  { dirExists := true, file := some ((fs.file.getD []) ++ [serializeLine r]) }

/-- `do_report`: `create_dir_all`, then open the file read-only (failing if
absent), load, sort, reverse, take `limit`.  Returns the final filesystem
state together with the report result. -/
def doReport (fs : FS) (limit : Nat) : FS × Except LoadError (List Record) :=
  ({ fs with dirExists := true }, doReportPure fs.file limit)

/-- `do_show_path`: prints the resolved path; touches no filesystem state. -/
def doShowPath (fs : FS) : FS := fs

/-- structopt's `#[structopt(default_value = "10", long)] limit`: an absent
`--limit` argument means 10. -/
def reportLimit (cli : Option Nat) : Nat := cli.getD 10

/-! ### Record-level round trip -/

theorem comma_not_mem_serialized (r : Record) :
    ∀ f ∈ serializeRecord r, ',' ∉ f := by
  intro f hf
  have hint : ',' ∉ intDec r.timestamp := by
    unfold intDec
    split
    · intro hc
      rw [List.mem_cons] at hc
      rcases hc with hc | hc
      · exact absurd hc (by decide)
      · exact comma_not_mem_natDec _ hc
    · exact comma_not_mem_natDec _
  unfold serializeRecord at hf
  simp only [List.mem_cons, List.not_mem_nil, or_false] at hf
  rcases hf with rfl | rfl | rfl | rfl
  · exact hint
  · exact comma_not_mem_natDec _
  · exact comma_not_mem_natDec _
  · exact comma_not_mem_natDec _

theorem splitComma_serializeLine (r : Record) :
    splitComma (serializeLine r) = serializeRecord r :=
  splitComma_joinComma _ (by simp [serializeRecord])
    (comma_not_mem_serialized r)

theorem intDec_nonneg (i : Int) (h : 0 ≤ i) : intDec i = natDec i.toNat := by
  unfold intDec
  rw [if_neg (by omega)]

theorem parseLine_serializeLine (r : Record) (h0 : 0 ≤ r.timestamp)
    (hwf : r.WF) : parseLine (serializeLine r) = some r := by
  obtain ⟨hl, h1, h2, h3, h4⟩ := hwf
  unfold parseLine
  rw [splitComma_serializeLine]
  unfold serializeRecord
  rw [intDec_nonneg _ h0]
  have hts : (r.timestamp.toNat : Int) = r.timestamp := Int.toNat_of_nonneg h0
  dsimp only
  rw [parseI64?_natDec _ (by omega), parseU32?_natDec _ h2,
    parseU32?_natDec _ h3, parseU32?_natDec _ h4]
  dsimp only
  rw [hts]

/-! ### Ordering lemmas -/

theorem recordLe_iff (a b : Record) :
    recordLe a b = true ↔ a.timestamp ≤ b.timestamp := by
  unfold recordLe recordLt Record.partialCmp intCompare
  rcases lt_trichotomy b.timestamp a.timestamp with h | h | h
  · rw [if_pos h]
    rw [show (!(some Ordering.lt == some Ordering.lt)) = false from rfl]
    simp only [Bool.false_eq_true, false_iff]
    omega
  · rw [if_neg (by omega), if_pos h]
    rw [show (!(some Ordering.eq == some Ordering.lt)) = true from rfl]
    simp only [true_iff]
    omega
  · rw [if_neg (by omega), if_neg (by omega)]
    rw [show (!(some Ordering.gt == some Ordering.lt)) = true from rfl]
    simp only [true_iff]
    omega

theorem recordLe_trans (a b c : Record) (hab : recordLe a b)
    (hbc : recordLe b c) : recordLe a c := by
  rw [recordLe_iff] at *
  omega

theorem recordLe_total (a b : Record) : recordLe a b || recordLe b a := by
  rcases Int.le_total a.timestamp b.timestamp with h | h
  · rw [Bool.or_eq_true, recordLe_iff]
    exact Or.inl h
  · rw [Bool.or_eq_true, recordLe_iff, recordLe_iff]
    exact Or.inr h

theorem sortRecords_perm (rs : List Record) : (sortRecords rs).Perm rs :=
  List.mergeSort_perm rs recordLe

theorem sortRecords_sorted (rs : List Record) :
    (sortRecords rs).Pairwise (fun a b => a.timestamp ≤ b.timestamp) := by
  have h := List.sorted_mergeSort
    (fun a b c => recordLe_trans a b c) (fun a b => recordLe_total a b) rs
  exact h.imp (fun hab => (recordLe_iff _ _).mp hab)

theorem length_sortRecords (rs : List Record) :
    (sortRecords rs).length = rs.length :=
  List.length_mergeSort rs

/-- The successful report output: `sortRecords`, reversed, truncated. -/
theorem doReportPure_ok (file : Option (List (List Char))) (L : Nat)
    (rs : List Record) (h : loadAll file = .ok rs) :
    doReportPure file L = .ok (((sortRecords rs).reverse).take L) := by
  unfold doReportPure
  rw [h]

theorem report_output_length (rs : List Record) (L : Nat) :
    (((sortRecords rs).reverse).take L).length = min rs.length L := by
  rw [List.length_take, List.length_reverse, length_sortRecords,
    Nat.min_comm]

theorem report_output_desc (rs : List Record) (L : Nat) :
    (((sortRecords rs).reverse).take L).Pairwise
      (fun a b => b.timestamp ≤ a.timestamp) := by
  have hs := sortRecords_sorted rs
  have hrev : ((sortRecords rs).reverse).Pairwise
      (fun a b => b.timestamp ≤ a.timestamp) :=
    (List.pairwise_reverse).mpr hs
  exact hrev.sublist (List.take_sublist _ _)

/-! ### Load lemmas -/

theorem parseLines_append (xs ys : List (List Char)) :
    parseLines (xs ++ ys) =
      match parseLines xs, parseLines ys with
      | some a, some b => some (a ++ b)
      | _, _ => none := by
  induction xs with
  | nil =>
    simp only [List.nil_append, parseLines]
    cases parseLines ys <;> rfl
  | cons l ls ih =>
    simp only [List.cons_append, parseLines, List.append_eq, ih]
    cases parseLine l <;> cases parseLines ls <;> cases parseLines ys <;> rfl

theorem parseLines_none_of_mem (lines : List (List Char)) (l : List Char)
    (hmem : l ∈ lines) (hbad : parseLine l = none) :
    parseLines lines = none := by
  induction lines with
  | nil => cases hmem
  | cons x xs ih =>
    rcases List.mem_cons.mp hmem with rfl | hx
    · simp only [parseLines, hbad]
    · simp only [parseLines, ih hx]
      cases parseLine x <;> rfl

/-! ## Display (`impl Display for Record`)

The Rust code converts the stored UTC timestamp to `chrono::Local` and
renders it with the format string `"%Y-%m-%d %I:%M%P"`, then appends
`"\tBP: {sys}/{dia}\tPulse: {pulse}"`.  The local zone is an environment
value; we model it as an offset (in seconds) added to the UTC timestamp
before the civil-calendar conversion, and embed chrono's formatter for
exactly the specifiers the format string uses. -/

/-- Days-to-civil-date conversion (proleptic Gregorian), as chrono performs
for formatting: returns `(year, month, day)` for a day count since
1970-01-01. -/
def civilFromDays (z0 : Int) : Int × Nat × Nat :=
  let z := z0 + 719468
  let era : Int := z / 146097
  let doe : Nat := (z - era * 146097).toNat
  let yoe : Nat := (doe - doe / 1460 + doe / 36524 - doe / 146096) / 365
  let y : Int := (yoe : Int) + era * 400
  let doy : Nat := doe - (365 * yoe + yoe / 4 - yoe / 100)
  let mp : Nat := (5 * doy + 2) / 153
  let d : Nat := doy - (153 * mp + 2) / 5 + 1
  let m : Nat := if mp < 10 then mp + 3 else mp - 9
  (if m ≤ 2 then y + 1 else y, m, d)

/-- Civil date plus hour and minute of the local wall clock at offset `off`
seconds east of UTC, for the UTC timestamp `ts` (seconds since epoch). -/
def localCivil (off ts : Int) : (Int × Nat × Nat) × Nat × Nat :=
  let t := ts + off
  let days : Int := t / 86400
  let sod : Nat := (t % 86400).toNat
  (civilFromDays days, sod / 3600, sod % 3600 / 60)

/-- Zero-pad a decimal rendering to width `w`. -/
def padNat (w n : Nat) : List Char :=
  List.replicate (w - (natDec n).length) '0' ++ natDec n

/-- chrono's `%Y`: the year, zero-padded to 4 digits (sign first when
negative). -/
def formatYear (y : Int) : List Char :=
  if y < 0 then '-' :: padNat 4 (-y).toNat else padNat 4 y.toNat

/-- chrono's `%I`: hour on the 12-hour clock (00..23 → 12,1..11,12,1..11). -/
def hour12of (h : Nat) : Nat := if h % 12 = 0 then 12 else h % 12

/-- The format-string items appearing in `"%Y-%m-%d %I:%M%P"`. -/
inductive FmtItem where
  | lit (c : Char)
  | year4
  | month2
  | day2
  | hour12
  | minute2
  | ampmLower
deriving DecidableEq, Repr

/-- chrono's rendering of one format item against a civil date-time. -/
def renderItem (dt : (Int × Nat × Nat) × Nat × Nat) : FmtItem → List Char
  | .lit c => [c]
  | .year4 => formatYear dt.1.1
  | .month2 => padNat 2 dt.1.2.1
  | .day2 => padNat 2 dt.1.2.2
  | .hour12 => padNat 2 (hour12of dt.2.1)
  | .minute2 => padNat 2 dt.2.2
  | .ampmLower => if dt.2.1 < 12 then ['a', 'm'] else ['p', 'm']

/-- chrono's `format`: concatenate the rendered items. -/
def chronoFormat (items : List FmtItem) (dt : (Int × Nat × Nat) × Nat × Nat) :
    List Char :=
  (items.map (renderItem dt)).flatten

/-- The parsed form of the format string `"%Y-%m-%d %I:%M%P"` in
`Display for Record`. -/
def recordFormatItems : List FmtItem :=
  [.year4, .lit '-', .month2, .lit '-', .day2, .lit ' ',
   .hour12, .lit ':', .minute2, .ampmLower]

/-- `Display for Record`: the local-time part, a tab, `BP: sys/dia`, a tab,
`Pulse: p`. -/
def displayRecord (off : Int) (r : Record) : List Char :=
  chronoFormat recordFormatItems (localCivil off r.timestamp) ++
    '\t' :: ('B' :: 'P' :: ':' :: ' ' :: natDec r.systolic) ++
    '/' :: natDec r.diastolic ++
    '\t' :: ('P' :: 'u' :: 'l' :: 's' :: 'e' :: ':' :: ' ' :: natDec r.pulse)

/-! ### Spec-side rendition of the report line

Built from the spec's words
`<local-date> <local-12hr-time-lowercase-am/pm>\tBP: <systolic>/<diastolic>\tPulse: <pulse>`,
to be compared with `displayRecord` (which follows the source's format
string item by item). -/

/-- The spec's `<local-date>`: year-month-day, zero-padded. -/
def specLocalDate (ymd : Int × Nat × Nat) : List Char :=
  formatYear ymd.1 ++ '-' :: padNat 2 ymd.2.1 ++ '-' :: padNat 2 ymd.2.2

/-- The spec's `<local-12hr-time-lowercase-am/pm>`: `hh:mm` on the 12-hour
clock followed by lowercase `am`/`pm`. -/
def specLocalTime12 (hour minute : Nat) : List Char :=
  padNat 2 (hour12of hour) ++ ':' :: padNat 2 minute ++
    (if hour < 12 then ['a', 'm'] else ['p', 'm'])

/-- The spec's whole report line for one reading. -/
def specReportLine (off : Int) (r : Record) : List Char :=
  let dt := localCivil off r.timestamp
  specLocalDate dt.1 ++ ' ' :: specLocalTime12 dt.2.1 dt.2.2 ++
    '\t' :: ('B' :: 'P' :: ':' :: ' ' :: natDec r.systolic) ++
    '/' :: natDec r.diastolic ++
    '\t' :: ('P' :: 'u' :: 'l' :: 's' :: 'e' :: ':' :: ' ' :: natDec r.pulse)

theorem hour12of_bounds (h : Nat) : 1 ≤ hour12of h ∧ hour12of h ≤ 12 := by
  unfold hour12of
  split
  · omega
  · have := Nat.mod_lt h (show 0 < 12 by omega)
    omega

theorem displayRecord_eq_specReportLine (off : Int) (r : Record) :
    displayRecord off r = specReportLine off r := by
  unfold displayRecord specReportLine chronoFormat recordFormatItems
    renderItem specLocalDate specLocalTime12
  simp only [List.map_cons, List.map_nil, List.flatten_cons, List.flatten_nil]
  simp only [List.append_assoc, List.cons_append, List.nil_append,
    List.append_nil]

/-! ### Helpers for out-of-range `u32` fields -/

theorem parseU32?_none_of_out_of_range (f : List Char) (v : Int)
    (hint : parseIntField? f = some v) (hrange : v < 0 ∨ 2 ^ 32 ≤ v) :
    parseU32? f = none := by
  unfold parseIntField? at hint
  unfold parseU32?
  cases hsp : splitSign f with
  | mk neg body =>
    rw [hsp] at hint
    dsimp only at hint ⊢
    cases neg with
    | true => rfl
    | false =>
      dsimp only at hint ⊢
      cases hd : decToNat? body with
      | none => rfl
      | some n =>
        rw [hd] at hint
        dsimp only at hint ⊢
        simp only [Option.some.injEq] at hint
        have hv : v = (n : Int) := hint.symm
        have hn : ¬(n < 2 ^ 32) := by
          rcases hrange with hr | hr
          · exfalso
            have : (0 : Int) ≤ (n : Int) := Int.natCast_nonneg n
            omega
          · intro hlt
            have h2 : ((n : Int)) < (2 : Int) ^ 32 := by
              exact_mod_cast hlt
            omega
        rw [if_neg hn]

theorem parseLine_none_of_bad_field (l f0 f1 f2 f3 : List Char)
    (hsplit : splitComma l = [f0, f1, f2, f3])
    (hbad : parseU32? f1 = none ∨ parseU32? f2 = none ∨ parseU32? f3 = none) :
    parseLine l = none := by
  unfold parseLine
  rw [hsplit]
  dsimp only
  rcases hbad with h | h | h
  · rw [h]
    cases parseI64? f0 <;> cases parseU32? f2 <;> cases parseU32? f3 <;> rfl
  · rw [h]
    cases parseI64? f0 <;> cases parseU32? f1 <;> cases parseU32? f3 <;> rfl
  · rw [h]
    cases parseI64? f0 <;> cases parseU32? f1 <;> cases parseU32? f2 <;> rfl

/-! ## Claims -/

/-- C1: For any two readings with identical timestamps, the ordering used by
the program (the manual `PartialOrd for Record`, which `Vec::sort` drives via
`lt`) treats them as equal regardless of systolic, diastolic and pulse
values: `partial_cmp` returns `Some(Equal)` and neither compares less than
the other. -/
theorem claim_c1_ordering_timestamp_only (a b : Record)
    (h : a.timestamp = b.timestamp) :
    Record.partialCmp a b = some Ordering.eq ∧
      recordLt a b = false ∧ recordLt b a = false := by
  have hcmp : intCompare a.timestamp b.timestamp = Ordering.eq := by
    unfold intCompare
    rw [h, if_neg (lt_irrefl _), if_pos rfl]
  have hcmp' : intCompare b.timestamp a.timestamp = Ordering.eq := by
    unfold intCompare
    rw [h, if_neg (lt_irrefl _), if_pos rfl]
  refine ⟨?_, ?_, ?_⟩
  · unfold Record.partialCmp
    rw [hcmp]
  · unfold recordLt Record.partialCmp
    rw [hcmp]
    rfl
  · unfold recordLt Record.partialCmp
    rw [hcmp']
    rfl

theorem claim_c1_witness :
    Record.partialCmp ⟨100, 120, 80, 60⟩ ⟨100, 130, 85, 65⟩
        = some Ordering.eq ∧
      recordLt ⟨100, 120, 80, 60⟩ ⟨100, 130, 85, 65⟩ = false ∧
      recordLt ⟨100, 130, 85, 65⟩ ⟨100, 120, 80, 60⟩ = false :=
  claim_c1_ordering_timestamp_only _ _ rfl

/-- C2: For every stored sequence of readings and every limit, the report is
load-all, stable sort ascending by timestamp, reverse to descending, take at
most `limit`: the output has exactly `min N L` entries and is pairwise
descending in timestamp (so a strictly smaller timestamp appears after a
strictly larger one). -/
theorem claim_c2_report_pipeline (fs : FS) (L : Nat) (rs : List Record)
    (h : loadAll fs.file = .ok rs) :
    (doReport fs L).2 = .ok (((sortRecords rs).reverse).take L) ∧
      (sortRecords rs).Perm rs ∧
      (sortRecords rs).Pairwise (fun a b => a.timestamp ≤ b.timestamp) ∧
      (((sortRecords rs).reverse).take L).length = min rs.length L ∧
      (((sortRecords rs).reverse).take L).Pairwise
        (fun a b => b.timestamp ≤ a.timestamp) := by
  refine ⟨?_, sortRecords_perm rs, sortRecords_sorted rs,
    report_output_length rs L, report_output_desc rs L⟩
  show doReportPure fs.file L = _
  exact doReportPure_ok fs.file L rs h

theorem claim_c2_witness :
    (doReport ⟨true, some [['5', ',', '1', '2', '0', ',', '8', '0', ',',
        '6', '0']]⟩ 10).2
        = .ok (((sortRecords [⟨5, 120, 80, 60⟩]).reverse).take 10) ∧
      (sortRecords [⟨5, 120, 80, 60⟩]).Perm [⟨5, 120, 80, 60⟩] ∧
      (sortRecords [⟨5, 120, 80, 60⟩]).Pairwise
        (fun a b => a.timestamp ≤ b.timestamp) ∧
      (((sortRecords [⟨5, 120, 80, 60⟩]).reverse).take 10).length
        = min ([⟨5, 120, 80, 60⟩] : List Record).length 10 ∧
      (((sortRecords [⟨5, 120, 80, 60⟩]).reverse).take 10).Pairwise
        (fun a b => b.timestamp ≤ a.timestamp) :=
  claim_c2_report_pipeline _ 10 _ rfl

/-- C3: Serializing a reading with non-negative integer fields to its CSV
row and deserializing that row yields the same reading in all four fields
(the timestamp is stored at second granularity on both sides). -/
theorem claim_c3_roundtrip (r : Record) (h0 : 0 ≤ r.timestamp)
    (hwf : r.WF) : parseLine (serializeLine r) = some r :=
  parseLine_serializeLine r h0 hwf

theorem claim_c3_witness :
    parseLine (serializeLine ⟨1700000000, 120, 80, 60⟩)
      = some ⟨1700000000, 120, 80, 60⟩ :=
  claim_c3_roundtrip _ (by decide) (by decide)

/-- C4: Appending a reading `r` to a store whose file loads as `[r1..rn]`
and loading again returns exactly `[r1..rn, r]` (pre-sort order), and the
append rewrites no previously written row: the new file is the old lines
plus one new row at the end. -/
theorem claim_c4_append_only (fs : FS) (r : Record) (rs : List Record)
    (h : loadAll fs.file = .ok rs) (h0 : 0 ≤ r.timestamp) (hwf : r.WF) :
    loadAll (doRecord fs r).file = .ok (rs ++ [r]) ∧
      ∀ old, fs.file = some old →
        (doRecord fs r).file = some (old ++ [serializeLine r]) := by
  constructor
  · cases hfile : fs.file with
    | none =>
      rw [hfile] at h
      simp [loadAll] at h
    | some lines =>
      rw [hfile] at h
      unfold loadAll at h
      dsimp only at h
      have hp : parseLines lines = some rs := by
        cases hpl : parseLines lines with
        | none =>
          rw [hpl] at h
          simp at h
        | some rs' =>
          rw [hpl] at h
          simp only [Except.ok.injEq] at h
          rw [h]
      have hgetD : (doRecord fs r).file
          = some (lines ++ [serializeLine r]) := by
        simp [doRecord, hfile]
      rw [hgetD]
      unfold loadAll
      dsimp only
      rw [parseLines_append, hp]
      have hone : parseLines [serializeLine r] = some [r] := by
        unfold parseLines
        rw [parseLine_serializeLine r h0 hwf]
        rfl
      rw [hone]
  · intro old hold
    simp [doRecord, hold]

theorem claim_c4_witness :
    loadAll (doRecord ⟨true, some []⟩ ⟨1700000000, 120, 80, 60⟩).file
        = .ok ([] ++ [⟨1700000000, 120, 80, 60⟩]) ∧
      ∀ old, (⟨true, some []⟩ : FS).file = some old →
        (doRecord ⟨true, some []⟩ ⟨1700000000, 120, 80, 60⟩).file
          = some (old ++ [serializeLine ⟨1700000000, 120, 80, 60⟩]) :=
  claim_c4_append_only ⟨true, some []⟩ ⟨1700000000, 120, 80, 60⟩ []
    rfl (by decide) (by decide)

/-- C5: Report on a missing backing file fails with the missing-file error;
it does not treat the absent file as zero readings (an existing empty file,
by contrast, reports an empty list). -/
theorem claim_c5_missing_file_fails (dirE : Bool) (L : Nat) :
    (doReport ⟨dirE, none⟩ L).2 = .error .missingFile ∧
      (doReport ⟨dirE, some []⟩ L).2 = .ok [] := by
  constructor
  · rfl
  · show doReportPure (some []) L = .ok []
    have hl : loadAll (some []) = .ok ([] : List Record) := rfl
    unfold doReportPure
    rw [hl]
    simp [sortRecords]

/-- C6: If any line of the backing file fails to parse, the whole load and
hence the whole report fail with a parse error: no prefix of parsed readings
is returned and no bad row is skipped. -/
theorem claim_c6_malformed_line_fails (lines : List (List Char))
    (l : List Char) (L : Nat) (dirE : Bool)
    (hmem : l ∈ lines) (hbad : parseLine l = none) :
    loadAll (some lines) = .error .parseError ∧
      (doReport ⟨dirE, some lines⟩ L).2 = .error .parseError := by
  have hp := parseLines_none_of_mem lines l hmem hbad
  have hl : loadAll (some lines) = .error .parseError := by
    unfold loadAll
    dsimp only
    rw [hp]
  refine ⟨hl, ?_⟩
  show doReportPure (some lines) L = _
  unfold doReportPure
  rw [hl]

theorem claim_c6_witness :
    loadAll (some [['x']]) = .error .parseError ∧
      (doReport ⟨true, some [['x']]⟩ 10).2 = .error .parseError :=
  claim_c6_malformed_line_fails [['x']] ['x'] 10 true
    (List.mem_cons_self _ _) rfl

/-- C7: Every appended reading is serialized as one header-less CSV row with
the fields in the fixed order timestamp, systolic, diastolic, pulse, comma
separated: the row splits into four all-digit fields that parse back as the
timestamp's epoch-second count (`i64`) and the three `u32` values. -/
theorem claim_c7_row_format (r : Record) (h0 : 0 ≤ r.timestamp)
    (hwf : r.WF) :
    ∃ f0 f1 f2 f3 : List Char,
      serializeLine r = f0 ++ ',' :: f1 ++ ',' :: f2 ++ ',' :: f3 ∧
      (∀ c, c ∈ f0 ++ f1 ++ f2 ++ f3 → '0' ≤ c ∧ c ≤ '9') ∧
      parseI64? f0 = some r.timestamp ∧
      parseU32? f1 = some r.systolic ∧
      parseU32? f2 = some r.diastolic ∧
      parseU32? f3 = some r.pulse := by
  obtain ⟨hl, h1, h2, h3, h4⟩ := hwf
  have hts : (r.timestamp.toNat : Int) = r.timestamp := Int.toNat_of_nonneg h0
  refine ⟨natDec r.timestamp.toNat, natDec r.systolic, natDec r.diastolic,
    natDec r.pulse, ?_, ?_, ?_, ?_, ?_, ?_⟩
  · show joinComma (serializeRecord r) = _
    unfold serializeRecord
    rw [intDec_nonneg _ h0]
    show natDec r.timestamp.toNat ++
        ',' :: (natDec r.systolic ++
          ',' :: (natDec r.diastolic ++ ',' :: natDec r.pulse)) = _
    simp [List.append_assoc, List.cons_append]
  · intro c hc
    simp only [List.mem_append] at hc
    rcases hc with ((hc | hc) | hc) | hc
    · exact natDec_all_digits _ c hc
    · exact natDec_all_digits _ c hc
    · exact natDec_all_digits _ c hc
    · exact natDec_all_digits _ c hc
  · rw [parseI64?_natDec _ (by omega), hts]
  · exact parseU32?_natDec _ h2
  · exact parseU32?_natDec _ h3
  · exact parseU32?_natDec _ h4

theorem claim_c7_witness :
    ∃ f0 f1 f2 f3 : List Char,
      serializeLine ⟨1700000000, 120, 80, 60⟩
          = f0 ++ ',' :: f1 ++ ',' :: f2 ++ ',' :: f3 ∧
      (∀ c, c ∈ f0 ++ f1 ++ f2 ++ f3 → '0' ≤ c ∧ c ≤ '9') ∧
      parseI64? f0 = some (⟨1700000000, 120, 80, 60⟩ : Record).timestamp ∧
      parseU32? f1 = some (⟨1700000000, 120, 80, 60⟩ : Record).systolic ∧
      parseU32? f2 = some (⟨1700000000, 120, 80, 60⟩ : Record).diastolic ∧
      parseU32? f3 = some (⟨1700000000, 120, 80, 60⟩ : Record).pulse :=
  claim_c7_row_format _ (by decide) (by decide)

/-- C8: Each reported reading prints as the local date and 12-hour time with
lowercase am/pm, a tab, `BP: sys/dia`, a tab, `Pulse: p` — the rendering of
the source's `%Y-%m-%d %I:%M%P` format string over the UTC timestamp shifted
into the local zone equals the spec's line shape, the 12-hour field is
always in 1..12, and an absent `--limit` defaults to 10. -/
theorem claim_c8_display_format :
    (∀ (off : Int) (r : Record),
        displayRecord off r = specReportLine off r) ∧
      (∀ h : Nat, 1 ≤ hour12of h ∧ hour12of h ≤ 12) ∧
      reportLimit none = 10 :=
  ⟨displayRecord_eq_specReportLine, hour12of_bounds, rfl⟩

/-- C9: Report creates the storage directory before opening the backing file
(its filesystem effect is exactly setting the directory to exist, never
touching the file), while show-path modifies nothing at all. -/
theorem claim_c9_report_creates_dir (fs : FS) (L : Nat) :
    (doReport fs L).1.dirExists = true ∧
      (doReport fs L).1.file = fs.file ∧
      doShowPath fs = fs :=
  ⟨rfl, rfl, rfl⟩

/-- C10: A stored row whose four fields are all well-formed integers but in
which one of the three `u32` fields is negative or at least `2^32` fails to
deserialize, and its presence fails the entire load and report. -/
theorem claim_c10_u32_range (l f0 f1 f2 f3 f : List Char) (v : Int)
    (lines : List (List Char)) (L : Nat) (dirE : Bool)
    (hsplit : splitComma l = [f0, f1, f2, f3])
    (hints : ∀ g ∈ [f0, f1, f2, f3], ∃ w, parseIntField? g = some w)
    (hfmem : f ∈ [f1, f2, f3])
    (hv : parseIntField? f = some v)
    (hrange : v < 0 ∨ 2 ^ 32 ≤ v)
    (hmem : l ∈ lines) :
    parseLine l = none ∧ loadAll (some lines) = .error .parseError ∧
      (doReport ⟨dirE, some lines⟩ L).2 = .error .parseError := by
  have hu32 : parseU32? f = none := parseU32?_none_of_out_of_range f v hv hrange
  have hbad : parseU32? f1 = none ∨ parseU32? f2 = none ∨
      parseU32? f3 = none := by
    simp only [List.mem_cons, List.not_mem_nil, or_false] at hfmem
    rcases hfmem with rfl | rfl | rfl
    · exact Or.inl hu32
    · exact Or.inr (Or.inl hu32)
    · exact Or.inr (Or.inr hu32)
  have hline := parseLine_none_of_bad_field l f0 f1 f2 f3 hsplit hbad
  have hp := parseLines_none_of_mem lines l hmem hline
  have hl : loadAll (some lines) = .error .parseError := by
    unfold loadAll
    dsimp only
    rw [hp]
  refine ⟨hline, hl, ?_⟩
  show doReportPure (some lines) L = _
  unfold doReportPure
  rw [hl]

theorem claim_c10_witness :
    parseLine ['1', '0', '0', ',', '4', '2', '9', '4', '9', '6', '7', '2',
        '9', '6', ',', '8', '0', ',', '6', '0'] = none ∧
      loadAll (some [['1', '0', '0', ',', '4', '2', '9', '4', '9', '6', '7',
        '2', '9', '6', ',', '8', '0', ',', '6', '0']]) = .error .parseError ∧
      (doReport ⟨true, some [['1', '0', '0', ',', '4', '2', '9', '4', '9',
        '6', '7', '2', '9', '6', ',', '8', '0', ',', '6', '0']]⟩ 10).2
        = .error .parseError :=
  claim_c10_u32_range _ ['1', '0', '0']
    ['4', '2', '9', '4', '9', '6', '7', '2', '9', '6'] ['8', '0'] ['6', '0']
    ['4', '2', '9', '4', '9', '6', '7', '2', '9', '6'] 4294967296 _ 10 true
    rfl
    (by
      intro g hg
      simp only [List.mem_cons, List.not_mem_nil, or_false] at hg
      rcases hg with rfl | rfl | rfl | rfl
      · exact ⟨100, rfl⟩
      · exact ⟨4294967296, rfl⟩
      · exact ⟨80, rfl⟩
      · exact ⟨60, rfl⟩)
    (by decide)
    rfl
    (Or.inr (by norm_num))
    (List.mem_cons_self _ _)

end BloodPressure
